import Mathlib

/-!
Verification of the yanked package manager core (src/yanked.py).

This file gives a shallow embedding, in Lean, of the record store and
lifecycle logic of the YankedManager class: name validation, the GitHub
URL to raw-content URL transform, record-file load and save, show_info,
uninstall_app, upgrade_app and upgrade_all.  Pure string and control-flow
logic is translated directly; collaborators (the HTTP fetcher, the clock,
the hash function, the file system) are passed in explicitly as values,
mirroring how the Python code consumes them.
-/

set_option autoImplicit false

namespace Yanked

/-! ## Name validation (YankedManager.validate_app_name)

The Python source:
  return bool(re.match(r'^[a-zA-Z0-9_-]+$', name))
In Python (without re.MULTILINE), the metacharacter in the pattern that
anchors the end matches at the end of the string or just before one
newline at the end of the string, and re.match does not require the
match to consume the whole input.  So the regex accepts exactly: a
nonempty run of class characters, optionally followed by one trailing
newline.  For example the name consisting of abc followed by a newline
is accepted by the source. -/

/-- Characters admitted by the character class [a-zA-Z0-9_-]. -/
def allowedChar (c : Char) : Bool :=
  ('a' ≤ c && c ≤ 'z') || ('A' ≤ c && c ≤ 'Z') || ('0' ≤ c && c ≤ '9')
    || c = '_' || c = '-'

/-- Embedding of YankedManager.validate_app_name with Python re.match
semantics: strip at most one trailing newline (where the end anchor may
sit), then require a nonempty all-class run. -/
def validate_app_name (name : String) : Bool :=
  let body := if name.data.getLast? = some '\n'
              then name.data.dropLast else name.data
  !body.isEmpty && body.all allowedChar

/-- Spec-side predicate, written from the words of the spec: a valid
name matches the pattern of case-sensitive ASCII alphanumerics plus
hyphen and underscore, one or more times, and nothing else. -/
def SpecValidName (name : String) : Prop :=
  name.data ≠ [] ∧ ∀ c ∈ name.data,
    ('a' ≤ c ∧ c ≤ 'z') ∨ ('A' ≤ c ∧ c ≤ 'Z') ∨ ('0' ≤ c ∧ c ≤ '9')
      ∨ c = '_' ∨ c = '-'

/-! ## URL resolution (YankedManager.get_raw_url)

The Python source:
  match = re.match(r'https?://github\.com/([^/]+)/([^/]+)/?.*', github_url)
  if not match: raise ValueError("Invalid GitHub URL")
  user, repo = match.groups()
  repo = repo.replace('.git', '')
  return f"https://raw.githubusercontent.com/USER/REPO/main/FILEPATH"
(the f-string interpolates user, repo and file_path).
Note that str.replace removes every occurrence of ".git", not only a
trailing suffix. -/

/-- Removal of every (non-overlapping, left-to-right) occurrence of the
substring ".git", the semantics of Python repo.replace(".git", ""). -/
def removeGitL : List Char → List Char
  | '.' :: 'g' :: 'i' :: 't' :: rest => removeGitL rest
  | c :: rest => c :: removeGitL rest
  | [] => []

/-- If p is a prefix of s, strip it and return the remainder. -/
def stripPrefixL : List Char → List Char → Option (List Char)
  | [], s => some s
  | _ :: _, [] => none
  | p :: ps, c :: cs => if c = p then stripPrefixL ps cs else none

/-- The second capture group: the maximal nonempty slash-free run after
the slash that follows the owner. -/
def pickRepo (user rest3 : List Char) : Option (List Char × List Char) :=
  match rest3.takeWhile (· ≠ '/') with
  | [] => none
  | repo => some (user, repo)

/-- The part of the repository-page regex after the scheme and host:
a nonempty slash-free owner, a slash, and a nonempty slash-free repo;
anything may follow (the trailing /?.* of the pattern matches any
remainder, the empty one included).  Returns the two captured groups. -/
def matchTail (rest : List Char) : Option (List Char × List Char) :=
  let user := rest.takeWhile (· ≠ '/')
  match user, rest.dropWhile (· ≠ '/') with
  | [], _ => none
  | _ :: _, '/' :: rest3 => pickRepo user rest3
  | _ :: _, _ => none

/-- Embedding of the regex match
https?://github com/([^ /]+)/([^ /]+)/?.* (dots elided): the string must
start with the scheme and host, then owner and repo as in matchTail. -/
def matchGithubL (s : List Char) : Option (List Char × List Char) :=
  match stripPrefixL "https://github.com/".data s with
  | some rest => matchTail rest
  | none =>
    match stripPrefixL "http://github.com/".data s with
    | some rest => matchTail rest
    | none => none

/-- The raw-URL construction at character-list level. -/
def get_raw_url_core (url path : List Char) : Option (List Char) :=
  match matchGithubL url with
  | none => none
  | some (user, repo) =>
    some ("https://raw.githubusercontent.com/".data
      ++ user ++ ['/'] ++ removeGitL repo ++ "/main/".data ++ path)

/-- Embedding of YankedManager.get_raw_url; none models the ValueError
raised when the URL does not match the repository-page pattern. -/
def get_raw_url (github_url : String) (file_path : String) : Option String :=
  (get_raw_url_core github_url.data file_path.data).map String.mk

/-- Spec-side repo cleaning, written from the words of the claim: strip
only a trailing ".git" suffix, leaving any other part intact. -/
def stripDotGitSuffix (repo : String) : String :=
  if ".git".data.isSuffixOf repo.data
  then String.mk (repo.data.take (repo.data.length - 4))
  else repo

/-! ## The data model

A persisted record is a JSON object; the keys that occur (in the code
and in its test suite) are method, source_url, file_url, install_date,
file_path, file_hash and last_update.  Since records are loaded from an
arbitrary JSON file, every key may be absent, so each field is an
Option; a Python KeyError corresponds to reading a field that is none.
The record store is the JSON object mapping names to records, embedded
as an association list, and the file system is an association list from
paths to byte contents (bytes as List Nat). -/

structure PackageRecord where
  method : Option String := none
  source_url : Option String := none
  file_url : Option String := none
  install_date : Option String := none
  file_path : Option String := none
  file_hash : Option String := none
  last_update : Option String := none
  deriving Repr, DecidableEq

abbrev RecordMap := List (String × PackageRecord)

abbrev FS := List (String × List Nat)

/-- First-match association-list lookup (Python dict indexing). -/
def lookupRec (n : String) : RecordMap → Option PackageRecord
  | [] => none
  | (k, v) :: rest => if k = n then some v else lookupRec n rest

/-- In-place value update of the entry with the given key; a key that is
absent is left absent (Python records[name][k] = v mutates in place). -/
def updateRec (n : String) (r : PackageRecord) (m : RecordMap) : RecordMap :=
  m.map fun kv => if kv.1 = n then (kv.1, r) else kv

/-- Deletion of a key (Python del records[name]). -/
def eraseRec (n : String) (m : RecordMap) : RecordMap :=
  m.filter fun kv => kv.1 ≠ n

/-- File-system lookup: the content of the file at a path, if any. -/
def lookupFS (p : String) : FS → Option (List Nat)
  | [] => none
  | (k, v) :: rest => if k = p then some v else lookupFS p rest

/-- Writing a file (open(path, "wb") followed by write): the path maps
to the new content afterwards, every other path is untouched. -/
def writeFS (p : String) (content : List Nat) (fs : FS) : FS :=
  (p, content) :: fs.filter fun kv => kv.1 ≠ p

/-- Removing a file (Path.unlink). -/
def removeFS (p : String) (fs : FS) : FS :=
  fs.filter fun kv => kv.1 ≠ p

/-! ## Paths (YankedManager.__init__ and install_app)

__init__ sets records_file = install_dir / ".yankpacks" and install_app
writes to install_dir / app_name.  pathlib's joining of a relative
single-component name is plain concatenation with a slash; the model
below is faithful for names free of slashes (which is what claim C10
establishes validated names to be). -/

/-- The target path install_dir / name used by install_app. -/
def installPath (install_dir : String) (name : String) : String :=
  install_dir ++ "/" ++ name

/-- The record-store path install_dir / ".yankpacks" set in __init__. -/
def recordsFilePath (install_dir : String) : String :=
  install_dir ++ "/" ++ ".yankpacks"

/-! ## show_info (YankedManager.show_info)

The Python function looks the name up; if absent it prints an error and
returns.  Otherwise it reads, in order, install_date (line 280), then
source_url, file_url, file_path, file_hash while printing, and finally
probes the existence of file_path on disk.  None of these dictionary
reads is inside a try block, so a missing key raises an uncaught
KeyError (the crash observed on custom-installer records). -/

/-- The rendered view: the values show_info prints. -/
structure InfoView where
  source_url : String
  file_url : String
  file_path : String
  install_date : String
  hashShown : String
  fileExists : Bool
  deriving Repr, DecidableEq

inductive ShowInfoResult where
  | notInstalled
  | keyError (key : String)
  | ok (view : InfoView)
  deriving Repr, DecidableEq

/-- Embedding of YankedManager.show_info. -/
def show_info (records : RecordMap) (fs : FS) (name : String) : ShowInfoResult :=
  match lookupRec name records with
  | none => .notInstalled
  | some info =>
    match info.install_date with
    | none => .keyError "install_date"
    | some d =>
      match info.source_url with
      | none => .keyError "source_url"
      | some su =>
        match info.file_url with
        | none => .keyError "file_url"
        | some fu =>
          match info.file_path with
          | none => .keyError "file_path"
          | some fp =>
            match info.file_hash with
            | none => .keyError "file_hash"
            | some fh =>
              .ok { source_url := su, file_url := fu, file_path := fp,
                    install_date := d, hashShown := fh.take 16,
                    fileExists := (lookupFS fp fs).isSome }

/-! ## uninstall_app (YankedManager.uninstall_app)

The Python function looks the name up (error and return if absent),
then reads info["file_path"] at line 306 — before the confirmation
prompt and outside any try block, so a record without file_path raises
an uncaught KeyError.  After confirmation: if the file exists it is
unlinked (an OSError aborts, leaving the record intact); a missing file
only warns; in both non-error cases the record is deleted and the store
saved. -/

inductive UninstallResult where
  | notInstalled
  | keyError (key : String)
  | cancelled
  | removeFailed
  | ok
  deriving Repr, DecidableEq

/-- Embedding of YankedManager.uninstall_app.  confirmYes is the answer
to the prompt; unlinkOk tells whether Path.unlink would succeed. -/
def uninstall_app (records : RecordMap) (fs : FS) (name : String)
    (confirmYes : Bool) (unlinkOk : Bool) :
    RecordMap × FS × UninstallResult :=
  match lookupRec name records with
  | none => (records, fs, .notInstalled)
  | some info =>
    match info.file_path with
    | none => (records, fs, .keyError "file_path")
    | some p =>
      if !confirmYes then (records, fs, .cancelled)
      else
        match lookupFS p fs with
        | some _ =>
          if unlinkOk then (eraseRec name records, removeFS p fs, .ok)
          else (records, fs, .removeFailed)
        | none => (eraseRec name records, fs, .ok)

/-! ## upgrade_app (YankedManager.upgrade_app)

The Python function looks the name up (error and return False if
absent).  The whole body after that sits in one try/except Exception
block, so a download failure and any KeyError inside it are caught,
printed and turned into return False with no state mutated.  On the
success path it fetches info["file_url"], hashes the content, compares
with info["file_hash"]; equality returns False with no change; on a
difference it writes the content to info["file_path"], re-applies the
executable bit, sets file_hash to the new digest and last_update to the
current time in the record, saves the store and returns True.
Collaborators are passed as values: hash is the content fingerprint
(calculate_hash, SHA-256 in the source), now the clock reading, and
fetch the downloader, returning none on failure. -/

/-- Embedding of YankedManager.upgrade_app, threading the record store
and file system as explicit state and returning the Python boolean. -/
def upgrade_app (hash : List Nat → String) (now : String)
    (fetch : String → Option (List Nat)) (st : RecordMap × FS)
    (name : String) : (RecordMap × FS) × Bool :=
  let records := st.1
  let fs := st.2
  match lookupRec name records with
  | none => ((records, fs), false)
  | some info =>
    match info.file_url with
    | none => ((records, fs), false)
    | some url =>
      match fetch url with
      | none => ((records, fs), false)
      | some content =>
        let latest_hash := hash content
        match info.file_hash with
        | none => ((records, fs), false)
        | some stored =>
          if latest_hash = stored then ((records, fs), false)
          else
            match info.file_path with
            | none => ((records, fs), false)
            | some p =>
              let info' := { info with file_hash := some latest_hash,
                                       last_update := some now }
              ((updateRec name info' records, writeFS p content fs), true)

/-! ## upgrade_all (YankedManager.upgrade_all)

Iterates sorted(records.keys()); per name it calls upgrade_app.  The
counting in the source is
    if result is True: updated_count += 1
    elif result is False and app_name in self.load_records(): pass
    else: failed_count += 1
and the summary prints updated_count, len(records) - updated_count -
failed_count as the up-to-date count, and failed_count. -/

/-- Lexicographic comparison of character lists by code point, the
order Python sorted uses on strings. -/
def listCharLe : List Char → List Char → Bool
  | [], _ => true
  | _ :: _, [] => false
  | c :: cs, d :: ds =>
    if c.toNat < d.toNat then true
    else if d.toNat < c.toNat then false
    else listCharLe cs ds

/-- String comparison by code points (Python string ordering). -/
def strLe (a b : String) : Bool := listCharLe a.data b.data

/-- Insertion of an element into a list sorted by a boolean comparison,
keeping existing elements first on ties (stable). -/
def insertLe {α : Type} (le : α → α → Bool) (x : α) : List α → List α
  | [] => [x]
  | y :: ys => if le y x then y :: insertLe le x ys else x :: y :: ys

/-- Insertion sort by a boolean comparison (Python sorted). -/
def sortLe {α : Type} (le : α → α → Bool) : List α → List α
  | [] => []
  | x :: xs => insertLe le x (sortLe le xs)

/-- The counts reported by the upgrade summary. -/
structure UpgradeCounts where
  updated : Nat
  upToDate : Nat
  failed : Nat
  deriving Repr, DecidableEq

/-- The per-name loop of upgrade_all, accumulating updated and failed
counts exactly as the source does. -/
def upgrade_all_go (hash : List Nat → String) (now : String)
    (fetch : String → Option (List Nat)) :
    List String → RecordMap × FS → Nat × Nat → (RecordMap × FS) × Nat × Nat
  | [], st, counts => (st, counts)
  | n :: ns, st, (upd, fl) =>
    let res := upgrade_app hash now fetch st n
    let counts' :=
      if res.2 then (upd + 1, fl)
      else if (lookupRec n res.1.1).isSome then (upd, fl)
      else (upd, fl + 1)
    upgrade_all_go hash now fetch ns res.1 counts'

/-- Embedding of YankedManager.upgrade_all. -/
def upgrade_all (hash : List Nat → String) (now : String)
    (fetch : String → Option (List Nat)) (records : RecordMap) (fs : FS) :
    (RecordMap × FS) × UpgradeCounts :=
  match records with
  | [] => ((records, fs), ⟨0, 0, 0⟩)
  | _ :: _ =>
    let names := sortLe strLe (records.map Prod.fst)
    let out := upgrade_all_go hash now fetch names (records, fs) (0, 0)
    (out.1, ⟨out.2.1, records.length - out.2.1 - out.2.2, out.2.2⟩)

/-! ## Record-store persistence (load_records and save_records)

load_records returns an empty dict when the file does not exist.  The
read and parse sit in a try block whose except clause names exactly
(json.JSONDecodeError, IOError): an IOError while opening or reading,
or text that is not valid JSON, is caught, printed as an error and
yields an empty dict.  A file whose bytes are not valid UTF-8, however,
raises UnicodeDecodeError from the read, which is a ValueError and not
matched by that except clause, so it escapes load_records and fails the
process (the top-level handler prints an unexpected error and exits 1).
Only a well-formed file produces its mapping.

save_records runs json.dump(records, f, indent=2, sort_keys=True) on a
file opened with open(path, "w").  Opening with mode "w" truncates the
file before anything is written, and no temporary file or rename is
involved, so the observable on-disk contents during a save are: the old
contents, then the empty (truncated) file, then the full serialization.
An IOError is caught and printed; the function returns normally. -/

inductive PersistedState where
  | absent
  | ioError
  | badUtf8
  | badJson
  | good (m : RecordMap)
  deriving Repr

/-- Embedding of YankedManager.load_records: on a normal return, the
mapping returned together with whether an error was reported; an
escaping exception is an error value. -/
def load_records : PersistedState → Except String (RecordMap × Bool)
  | .absent => .ok ([], false)
  | .ioError => .ok ([], true)
  | .badJson => .ok ([], true)
  | .badUtf8 => .error "UnicodeDecodeError"
  | .good m => .ok (m, false)

/-- A JSON string literal.  Escaping is not modelled; the inputs under
study contain no quotes or control characters. -/
def jsonStr (s : String) : String := "\"" ++ s ++ "\""

/-- The key/value pairs of one record in the order json.dump with
sort_keys=True emits them: the present fields, keys sorted. -/
def recordFields (r : PackageRecord) : List (String × String) :=
  [("file_hash", r.file_hash), ("file_path", r.file_path),
   ("file_url", r.file_url), ("install_date", r.install_date),
   ("last_update", r.last_update), ("method", r.method),
   ("source_url", r.source_url)].filterMap
    fun kv => kv.2.map fun v => (kv.1, v)

/-- One record rendered as json.dump(..., indent=2) renders a nested
object at depth one. -/
def renderRecord (r : PackageRecord) : String :=
  match recordFields r with
  | [] => "\x7b\x7d"
  | fields =>
    "\x7b\n"
      ++ String.intercalate ",\n"
          (fields.map fun kv => "    " ++ jsonStr kv.1 ++ ": " ++ jsonStr kv.2)
      ++ "\n  \x7d"

/-- The top-level entries in the order json.dump emits them: sorted by
package name. -/
def sortRecords (m : RecordMap) : RecordMap :=
  sortLe (fun a b => strLe a.1 b.1) m

/-- A sorted entry list rendered as the top-level JSON object. -/
def renderEntries (entries : RecordMap) : String :=
  match entries with
  | [] => "\x7b\x7d"
  | _ :: _ =>
    "\x7b\n"
      ++ String.intercalate ",\n"
          (entries.map fun kv => "  " ++ jsonStr kv.1 ++ ": " ++ renderRecord kv.2)
      ++ "\n\x7d"

/-- Embedding of the serialization performed by save_records:
json.dump(records, f, indent=2, sort_keys=True). -/
def serializeRecords (m : RecordMap) : String :=
  renderEntries (sortRecords m)

/-- The successive on-disk contents of the record file during
save_records, starting from old contents: open(path, "w") truncates,
then json.dump writes the serialization. -/
def save_records_states (old : String) (m : RecordMap) : List String :=
  [old, "", serializeRecords m]

/-- The crash-safety property claimed of save: a reader only ever
observes the previous contents or the complete new serialization. -/
def SaveNeverCorrupts (old : String) (m : RecordMap) : Prop :=
  ∀ s ∈ save_records_states old m, s = old ∨ s = serializeRecords m

/-- Whether save_records signals anything on an I/O failure: the
IOError is caught and reported as a printed message; no exception
escapes. -/
def save_records_reported (ioOk : Bool) : Bool := !ioOk

/-! ## Concrete records used as test inputs

instRec is the custom-installer record of the repository's own test
suite (test_show_info_inst_method, test_uninstall_app_inst_method): a
record with no file_path key.  scrRec is a direct-file record of the
shape install_app writes. -/

def instRec : PackageRecord :=
  { method := some "inst",
    source_url := some "https://github.com/user/complex-software",
    file_url :=
      some "https://raw.githubusercontent.com/user/complex-software/main/install.sh",
    install_date := some "2025-07-26T10:30:00",
    file_hash := some "def456" }

def scrRec : PackageRecord :=
  { method := some "scr",
    source_url := some "https://github.com/user/repo",
    file_url := some "https://raw.githubusercontent.com/user/repo/main/script.py",
    install_date := some "2025-07-26T10:30:00",
    file_path := some "/home/u/.local/bin/test-app",
    file_hash := some "oldhash" }

/-- Two installed direct-file packages for the upgrade_all scenario. -/
def recA : PackageRecord :=
  { source_url := some "sa", file_url := some "ua",
    install_date := some "da", file_path := some "/bin/a",
    file_hash := some "ha" }

def recB : PackageRecord :=
  { source_url := some "sb", file_url := some "ub",
    install_date := some "db", file_path := some "/bin/b",
    file_hash := some "hb" }

/-- A fetcher for which package a's URL fails to download and package
b's URL yields fresh content. -/
def demoFetch (u : String) : Option (List Nat) :=
  if u = "ub" then some [1] else none

/-- A concrete content fingerprint for test evaluation. -/
def constHash (_ : List Nat) : String := "X"

/-- A one-package store used for the save counterexample. -/
def demoMap : RecordMap := [("test-app", scrRec)]

end Yanked

namespace Yanked

/-- A nonempty all-class character list is exactly a spec-valid name. -/
theorem specValid_iff_all (l : List Char) :
    ((!l.isEmpty) && l.all allowedChar) = true ↔ SpecValidName (String.mk l) := by
  rw [Bool.and_eq_true, List.all_eq_true]
  show _ ↔ (l ≠ [] ∧ ∀ c ∈ l, _)
  constructor
  · rintro ⟨h1, h2⟩
    refine ⟨fun hnil => by simp [hnil] at h1, fun c hc => ?_⟩
    have := h2 c hc
    unfold allowedChar at this
    simp only [Bool.or_eq_true, Bool.and_eq_true, decide_eq_true_eq] at this
    tauto
  · rintro ⟨h1, h2⟩
    refine ⟨by simpa using h1, fun c hc => ?_⟩
    have := h2 c hc
    unfold allowedChar
    simp only [Bool.or_eq_true, Bool.and_eq_true, decide_eq_true_eq]
    tauto

/-- Claim C5, counterexample: Python re.match lets the end anchor sit
just before one trailing newline, so the source's validate accepts the
name abc followed by a newline — a string containing whitespace that
does not match the pattern exactly — where the claim requires false. -/
theorem validate_accepts_trailing_newline :
    validate_app_name "abc\n" = true ∧ ¬ SpecValidName "abc\n" := by
  refine ⟨by decide, fun h => ?_⟩
  exact absurd (h.2 '\n' (by decide)) (by decide)

/-- Claim C5, amended: validate(name) is true exactly for a name that
matches [A-Za-z0-9_-]+ exactly, or such a name followed by one trailing
newline (a Python re.match end-anchor artifact); it is false for the
empty string and every other string. -/
theorem validate_true_iff_pattern_or_newline (name : String) :
    validate_app_name name = true ↔
      (SpecValidName name
        ∨ ∃ body : List Char, name.data = body ++ ['\n']
            ∧ SpecValidName (String.mk body)) := by
  unfold validate_app_name
  by_cases hl : name.data.getLast? = some '\n'
  · rw [if_pos hl]
    have hne : name.data ≠ [] := fun e => by rw [e] at hl; simp at hl
    have hlast : name.data.getLast hne = '\n' := by
      have h := List.getLast?_eq_getLast name.data hne
      rw [h] at hl
      exact Option.some.inj hl
    have hdecomp : name.data = name.data.dropLast ++ ['\n'] := by
      have h1 := List.dropLast_append_getLast hne
      rw [hlast] at h1
      exact h1.symm
    rw [specValid_iff_all]
    constructor
    · intro h
      exact Or.inr ⟨name.data.dropLast, hdecomp, h⟩
    · rintro (h | ⟨body, hb, hbs⟩)
      · exfalso
        have hmem : '\n' ∈ name.data := by rw [hdecomp]; simp
        exact absurd (h.2 '\n' hmem) (by decide)
      · have hbody : name.data.dropLast = body :=
          List.append_cancel_right (hdecomp.symm.trans hb)
        rw [hbody]
        exact hbs
  · rw [if_neg hl]
    rw [specValid_iff_all]
    constructor
    · intro h
      exact Or.inl h
    · rintro (h | ⟨body, hb, hbs⟩)
      · exact h
      · exfalso
        apply hl
        rw [hb]
        exact List.getLast?_concat _

/-- Claim C1: the code crashes instead.  On the custom-installer record
of the repository's own test suite (a record with method "inst" and no
file_path key), show_info raises an uncaught KeyError on "file_path"
rather than rendering the record; the test suite asserts the opposite
behavior, so this is a bug in the code. -/
theorem show_info_inst_record_key_error :
    show_info [("test-installer", instRec)] [] "test-installer"
      = .keyError "file_path" := by
  rfl

/-- Claim C3: the custom-installer half fails in the code.  On a
direct-file record, uninstall removes the installed file and the record
when the file exists, and still removes the record (with only a
warning) when the file is already missing; but on the test suite's
custom-installer record (no file_path) it raises an uncaught KeyError
on "file_path" before even asking for confirmation, and the record is
not removed — the test suite asserts the record is removed. -/
theorem uninstall_behavior_on_methods :
    uninstall_app [("test-app", scrRec)] [("/home/u/.local/bin/test-app", [1])]
        "test-app" true true
      = ([], [], .ok)
    ∧ uninstall_app [("test-app", scrRec)] [] "test-app" true true
      = ([], [], .ok)
    ∧ uninstall_app [("test-installer", instRec)] [] "test-installer" true true
      = ([("test-installer", instRec)], [], .keyError "file_path") := by
  refine ⟨by rfl, by rfl, by rfl⟩

/-- Claim C9, counterexample: a record file whose bytes are not valid
UTF-8 is unreadable, corrupt persisted state, but the
UnicodeDecodeError it raises is not matched by the source's
except (json.JSONDecodeError, IOError) clause: it escapes load_records
and fails the process (top-level handler, exit 1), instead of being
reported and recovered with an empty mapping. -/
theorem load_bad_utf8_not_recovered :
    load_records .badUtf8 = .error "UnicodeDecodeError"
    ∧ load_records .badUtf8 ≠ .ok ([], true)
    ∧ load_records .badUtf8 ≠ .ok ([], false) := by
  refine ⟨rfl, by simp [load_records], by simp [load_records]⟩

/-- Claim C9, amended: load returns an empty mapping (not an error)
when no persisted state exists; an I/O error while reading, or a file
that decodes to text but is not valid JSON, is caught, reported, and
recovered with an empty mapping; but a record file whose bytes are not
valid UTF-8 raises an uncaught UnicodeDecodeError and the process
fails instead. -/
theorem load_records_recovers_decodable :
    load_records .absent = .ok ([], false)
    ∧ load_records .ioError = .ok ([], true)
    ∧ load_records .badJson = .ok ([], true)
    ∧ load_records .badUtf8 = .error "UnicodeDecodeError" := by
  exact ⟨rfl, rfl, rfl, rfl⟩

/-- Claim C4: the failure count is wrong in the code.  With two
installed packages a and b, where downloading a's URL fails and b has
fresh content, upgrade_all does keep going after a's failure and
upgrades b (failure isolation holds), but the summary reports updated 1,
up to date 1, failed 0: the failed package a is counted as up to date,
because upgrade_app returns the same False for a failure as for an
up-to-date package and the loop then sees the name still present in the
store.  The failed branch of the loop is unreachable, contradicting the
printed Failed count's purpose. -/
theorem upgrade_all_miscounts_failures :
    demoFetch "ua" = none
    ∧ upgrade_app constHash "now" demoFetch
        ([("a", recA), ("b", recB)], [("/bin/a", [0]), ("/bin/b", [0])]) "a"
      = (([("a", recA), ("b", recB)], [("/bin/a", [0]), ("/bin/b", [0])]), false)
    ∧ (upgrade_all constHash "now" demoFetch
        [("a", recA), ("b", recB)] [("/bin/a", [0]), ("/bin/b", [0])]).2
      = ⟨1, 1, 0⟩ := by
  refine ⟨rfl, rfl, by decide⟩

/-! ## Sorting lemmas for the serializer -/

theorem perm_insertLe {α : Type} (le : α → α → Bool) (x : α) (l : List α) :
    List.Perm (insertLe le x l) (x :: l) := by
  induction l with
  | nil => exact List.Perm.refl _
  | cons y ys ih =>
    unfold insertLe
    by_cases h : le y x = true
    · rw [if_pos h]
      exact (ih.cons y).trans (List.Perm.swap x y ys)
    · rw [if_neg h]

theorem perm_sortLe {α : Type} (le : α → α → Bool) (l : List α) :
    List.Perm (sortLe le l) l := by
  induction l with
  | nil => exact List.Perm.refl _
  | cons x xs ih =>
    exact (perm_insertLe le x (sortLe le xs)).trans (ih.cons x)

theorem pairwise_insertLe {α : Type} (le : α → α → Bool)
    (htot : ∀ a b, le a b = false → le b a = true)
    (htrans : ∀ a b c, le a b = true → le b c = true → le a c = true)
    (x : α) (l : List α) (hl : l.Pairwise fun a b => le a b = true) :
    (insertLe le x l).Pairwise fun a b => le a b = true := by
  induction l with
  | nil => simp [insertLe]
  | cons y ys ih =>
    rw [List.pairwise_cons] at hl
    unfold insertLe
    by_cases h : le y x = true
    · rw [if_pos h, List.pairwise_cons]
      refine ⟨fun z hz => ?_, ih hl.2⟩
      rcases List.mem_cons.mp ((perm_insertLe le x ys).mem_iff.mp hz) with hzx | hzys
      · rw [hzx]; exact h
      · exact hl.1 z hzys
    · rw [if_neg h, List.pairwise_cons]
      have hxy : le x y = true := htot y x (by simpa using h)
      refine ⟨fun z hz => ?_, List.pairwise_cons.mpr hl⟩
      rcases List.mem_cons.mp hz with hzy | hzys
      · rw [hzy]; exact hxy
      · exact htrans x y z hxy (hl.1 z hzys)

theorem pairwise_sortLe {α : Type} (le : α → α → Bool)
    (htot : ∀ a b, le a b = false → le b a = true)
    (htrans : ∀ a b c, le a b = true → le b c = true → le a c = true)
    (l : List α) :
    (sortLe le l).Pairwise fun a b => le a b = true := by
  induction l with
  | nil => simp [sortLe]
  | cons x xs ih => exact pairwise_insertLe le htot htrans x (sortLe le xs) ih

theorem listCharLe_total (a b : List Char) (h : listCharLe a b = false) :
    listCharLe b a = true := by
  induction a generalizing b with
  | nil => simp [listCharLe] at h
  | cons c cs ih =>
    cases b with
    | nil => rfl
    | cons d ds =>
      unfold listCharLe at h ⊢
      by_cases h1 : c.toNat < d.toNat
      · simp [h1] at h
      · by_cases h2 : d.toNat < c.toNat
        · simp [h2]
        · simp only [h1, h2, if_false] at h
          simp only [h1, h2, if_false]
          exact ih ds h

theorem listCharLe_trans (a b c : List Char) (hab : listCharLe a b = true)
    (hbc : listCharLe b c = true) : listCharLe a c = true := by
  induction a generalizing b c with
  | nil => rfl
  | cons x xs ih =>
    cases b with
    | nil => simp [listCharLe] at hab
    | cons y ys =>
      cases c with
      | nil => simp [listCharLe] at hbc
      | cons z zs =>
        unfold listCharLe at hab hbc ⊢
        by_cases hxy : x.toNat < y.toNat
        · by_cases hyz : y.toNat < z.toNat
          · have : x.toNat < z.toNat := Nat.lt_trans hxy hyz
            simp [this]
          · by_cases hzy : z.toNat < y.toNat
            · simp [hyz, hzy] at hbc
            · have hy : y.toNat = z.toNat := Nat.le_antisymm (Nat.not_lt.mp hzy) (Nat.not_lt.mp hyz)
              simp [hy ▸ hxy]
        · by_cases hyx : y.toNat < x.toNat
          · simp [hxy, hyx] at hab
          · have hx : x.toNat = y.toNat := Nat.le_antisymm (Nat.not_lt.mp hyx) (Nat.not_lt.mp hxy)
            simp only [hxy, hyx, if_false] at hab
            by_cases hyz : y.toNat < z.toNat
            · have : x.toNat < z.toNat := hx ▸ hyz
              simp [this]
            · by_cases hzy : z.toNat < y.toNat
              · simp [hyz, hzy] at hbc
              · simp only [hyz, hzy, if_false] at hbc
                have hxz : ¬ x.toNat < z.toNat := by
                  rw [hx]; exact hyz
                have hzx : ¬ z.toNat < x.toNat := by
                  rw [hx]; exact hzy
                simp only [hxz, hzx, if_false]
                exact ih ys zs hab hbc

/-- Claim C2, counterexample: save is not crash-safe.  Saving the
one-package store over its own previous serialization passes through
the truncated (empty) file state, which is neither the old contents nor
the new serialization: a write interrupted after the open exposes a
corrupt record file to a reader. -/
theorem save_not_crash_safe :
    ¬ SaveNeverCorrupts (serializeRecords demoMap) demoMap := by
  intro h
  have h0 := h "" (by simp [save_records_states])
  rcases h0 with h1 | h1 <;> exact absurd h1.symm (by decide)

/-- Claim C2, amended: save_records serializes the full mapping — the
serialized entry list is a permutation of the store, with keys in
sorted order — and an I/O error is caught and reported rather than
raised; but the write goes directly to the record file, truncating it
first, so the empty file is one of the observable on-disk states and an
interrupted or failed write can leave a corrupted record file (no
write-temp-then-rename). -/
theorem save_serializes_sorted_but_truncates (old : String) (m : RecordMap) :
    List.Perm (sortRecords m) m
    ∧ (sortRecords m).Pairwise (fun a b => strLe a.1 b.1 = true)
    ∧ (save_records_states old m).getLast? = some (serializeRecords m)
    ∧ "" ∈ save_records_states old m
    ∧ save_records_reported false = true := by
  refine ⟨perm_sortLe _ m, ?_, rfl, by simp [save_records_states], rfl⟩
  exact pairwise_sortLe _
    (fun a b h => listCharLe_total a.1.data b.1.data h)
    (fun a b c h1 h2 => listCharLe_trans a.1.data b.1.data c.1.data h1 h2)
    m

/-! ## Lemmas for the raw-URL transform -/

theorem stripPrefixL_append (p s : List Char) : stripPrefixL p (p ++ s) = some s := by
  induction p with
  | nil => rfl
  | cons c cs ih => simp [stripPrefixL, ih]

theorem takeWhile_append_slash (u rest : List Char) (h : '/' ∉ u) :
    (u ++ '/' :: rest).takeWhile (· ≠ '/') = u := by
  induction u with
  | nil => simp
  | cons c cs ih =>
    have hc : c ≠ '/' := fun e => h (by simp [e])
    rw [List.cons_append, List.takeWhile_cons, if_pos (decide_eq_true hc),
        ih fun hm => h (List.mem_cons_of_mem _ hm)]

theorem dropWhile_append_slash (u rest : List Char) (h : '/' ∉ u) :
    (u ++ '/' :: rest).dropWhile (· ≠ '/') = '/' :: rest := by
  induction u with
  | nil => simp
  | cons c cs ih =>
    have hc : c ≠ '/' := fun e => h (by simp [e])
    rw [List.cons_append, List.dropWhile_cons, if_pos (decide_eq_true hc)]
    exact ih fun hm => h (List.mem_cons_of_mem _ hm)

theorem takeWhile_no_slash (u : List Char) (h : '/' ∉ u) :
    u.takeWhile (· ≠ '/') = u := by
  induction u with
  | nil => rfl
  | cons c cs ih =>
    have hc : c ≠ '/' := fun e => h (by simp [e])
    rw [List.takeWhile_cons, if_pos (decide_eq_true hc),
        ih fun hm => h (List.mem_cons_of_mem _ hm)]

theorem pickRepo_spec (user repo : List Char) (hr : repo ≠ [])
    (hrs : '/' ∉ repo) : pickRepo user repo = some (user, repo) := by
  obtain ⟨d, ds, rfl⟩ := List.exists_cons_of_ne_nil hr
  unfold pickRepo
  rw [takeWhile_no_slash _ hrs]

theorem matchTail_spec (user repo : List Char) (hu : user ≠ [])
    (hus : '/' ∉ user) (hr : repo ≠ []) (hrs : '/' ∉ repo) :
    matchTail (user ++ '/' :: repo) = some (user, repo) := by
  obtain ⟨c, cs, rfl⟩ := List.exists_cons_of_ne_nil hu
  simp only [matchTail]
  rw [takeWhile_append_slash _ _ hus, dropWhile_append_slash _ _ hus]
  exact pickRepo_spec _ _ hr hrs

theorem matchGithubL_spec (user repo : List Char) (hu : user ≠ [])
    (hus : '/' ∉ user) (hr : repo ≠ []) (hrs : '/' ∉ repo) :
    matchGithubL ("https://github.com/".data ++ (user ++ '/' :: repo))
      = some (user, repo) := by
  unfold matchGithubL
  rw [stripPrefixL_append]
  exact matchTail_spec user repo hu hus hr hrs

/-- Claim C6, counterexample: the code removes every occurrence of
".git" from the repo name, not only a trailing suffix.  For the repo
name a.gitb, which does not end in ".git", the spec-side cleaning
(strip only a trailing .git suffix) leaves it intact, but get_raw_url
produces the raw URL with repo ab. -/
theorem get_raw_url_strips_inner_git :
    get_raw_url "https://github.com/u/a.gitb" "f.sh"
        = some "https://raw.githubusercontent.com/u/ab/main/f.sh"
    ∧ stripDotGitSuffix "a.gitb" = "a.gitb"
    ∧ get_raw_url "https://github.com/u/a.gitb" "f.sh"
        ≠ some ("https://raw.githubusercontent.com/u/"
            ++ stripDotGitSuffix "a.gitb" ++ "/main/f.sh") := by
  refine ⟨by decide, by decide, by decide⟩

/-- Claim C6, amended: for every repository-page URL built from a
nonempty slash-free owner and a nonempty slash-free repo and every
relative file path, get_raw_url deterministically concatenates the
owner, the repo with every occurrence of the substring ".git" removed
(not only a trailing suffix), the fixed branch name main, and the path
into the raw-content URL. -/
theorem get_raw_url_builds (user repo path : List Char) (hu : user ≠ [])
    (hus : '/' ∉ user) (hr : repo ≠ []) (hrs : '/' ∉ repo) :
    get_raw_url (String.mk ("https://github.com/".data ++ (user ++ '/' :: repo)))
        (String.mk path)
      = some (String.mk ("https://raw.githubusercontent.com/".data
          ++ user ++ ['/'] ++ removeGitL repo ++ "/main/".data ++ path)) := by
  show (get_raw_url_core ("https://github.com/".data ++ (user ++ '/' :: repo))
      path).map String.mk = _
  unfold get_raw_url_core
  rw [matchGithubL_spec user repo hu hus hr hrs]
  rfl

/-! ## Lemmas about the store and file system -/

theorem lookupRec_updateRec_self (n : String) (r r' : PackageRecord)
    (m : RecordMap) (h : lookupRec n m = some r) :
    lookupRec n (updateRec n r' m) = some r' := by
  induction m with
  | nil => simp [lookupRec] at h
  | cons kv rest ih =>
    obtain ⟨k, v⟩ := kv
    by_cases hk : k = n
    · subst hk
      have hu : updateRec k r' ((k, v) :: rest)
          = (k, r') :: updateRec k r' rest := by
        simp [updateRec]
      rw [hu, lookupRec, if_pos rfl]
    · simp only [lookupRec, if_neg hk] at h
      have hu : updateRec n r' ((k, v) :: rest)
          = (k, v) :: updateRec n r' rest := by
        simp [updateRec, hk]
      rw [hu, lookupRec, if_neg hk]
      exact ih h

theorem lookupFS_writeFS_self (p : String) (c : List Nat) (fs : FS) :
    lookupFS p (writeFS p c fs) = some c := by
  simp [writeFS, lookupFS]

theorem string_data_append (a b : String) : (a ++ b).data = a.data ++ b.data := by
  cases a; cases b; rfl

/-- Claim C7: a successful upgrade that detects changed content
overwrites the installed file bytes with the new content, sets
file_hash to the fingerprint of the new content, sets last_update, and
changes no other record field: source_url, file_url, method,
install_date and file_path are carried over unchanged. -/
theorem upgrade_changed_updates_only_hash_and_timestamp
    (hash : List Nat → String) (now : String)
    (fetch : String → Option (List Nat)) (records : RecordMap) (fs : FS)
    (name : String) (info : PackageRecord) (url : String)
    (content : List Nat) (stored : String) (p : String)
    (h1 : lookupRec name records = some info)
    (h2 : info.file_url = some url)
    (h3 : fetch url = some content)
    (h4 : info.file_hash = some stored)
    (h5 : hash content ≠ stored)
    (h6 : info.file_path = some p) :
    upgrade_app hash now fetch (records, fs) name
      = ((updateRec name { info with file_hash := some (hash content),
                                     last_update := some now } records,
          writeFS p content fs), true)
    ∧ lookupRec name (updateRec name
        { info with file_hash := some (hash content), last_update := some now }
        records)
      = some { info with file_hash := some (hash content), last_update := some now }
    ∧ lookupFS p (writeFS p content fs) = some content
    ∧ ({ info with file_hash := some (hash content),
                   last_update := some now }).source_url = info.source_url
    ∧ ({ info with file_hash := some (hash content),
                   last_update := some now }).file_url = info.file_url
    ∧ ({ info with file_hash := some (hash content),
                   last_update := some now }).method = info.method
    ∧ ({ info with file_hash := some (hash content),
                   last_update := some now }).install_date = info.install_date
    ∧ ({ info with file_hash := some (hash content),
                   last_update := some now }).file_path = info.file_path := by
  refine ⟨?_, lookupRec_updateRec_self name info _ records h1,
    lookupFS_writeFS_self p content fs, rfl, rfl, rfl, rfl, rfl⟩
  simp [upgrade_app, h1, h2, h3, h4, h5, h6]

/-- Concrete instantiation of claim C7: upgrading test-app with fresh
content rewrites the file, the hash and the timestamp and nothing
else. -/
theorem upgrade_changed_witness :
    lookupRec "test-app" [("test-app", scrRec)] = some scrRec
    ∧ scrRec.file_url
      = some "https://raw.githubusercontent.com/user/repo/main/script.py"
    ∧ (fun _ : String => some [104, 105])
        "https://raw.githubusercontent.com/user/repo/main/script.py"
      = some [104, 105]
    ∧ scrRec.file_hash = some "oldhash"
    ∧ (fun _ : List Nat => "newhash") [104, 105] ≠ "oldhash"
    ∧ scrRec.file_path = some "/home/u/.local/bin/test-app"
    ∧ (upgrade_app (fun _ => "newhash") "2025-10-12T00:00:00"
          (fun _ => some [104, 105])
          ([("test-app", scrRec)], [("/home/u/.local/bin/test-app", [104])])
          "test-app"
        = ((updateRec "test-app"
              { scrRec with
                file_hash := some "newhash",
                last_update := some "2025-10-12T00:00:00" }
              [("test-app", scrRec)],
            writeFS "/home/u/.local/bin/test-app" [104, 105]
              [("/home/u/.local/bin/test-app", [104])]), true)
       ∧ lookupRec "test-app" (updateRec "test-app"
            { scrRec with
              file_hash := some "newhash",
              last_update := some "2025-10-12T00:00:00" }
            [("test-app", scrRec)])
          = some { scrRec with
                   file_hash := some "newhash",
                   last_update := some "2025-10-12T00:00:00" }
       ∧ lookupFS "/home/u/.local/bin/test-app"
            (writeFS "/home/u/.local/bin/test-app" [104, 105]
              [("/home/u/.local/bin/test-app", [104])])
          = some [104, 105]
       ∧ ({ scrRec with
             file_hash := some "newhash",
             last_update := some "2025-10-12T00:00:00" }).source_url
          = scrRec.source_url
       ∧ ({ scrRec with
             file_hash := some "newhash",
             last_update := some "2025-10-12T00:00:00" }).file_url
          = scrRec.file_url
       ∧ ({ scrRec with
             file_hash := some "newhash",
             last_update := some "2025-10-12T00:00:00" }).method
          = scrRec.method
       ∧ ({ scrRec with
             file_hash := some "newhash",
             last_update := some "2025-10-12T00:00:00" }).install_date
          = scrRec.install_date
       ∧ ({ scrRec with
             file_hash := some "newhash",
             last_update := some "2025-10-12T00:00:00" }).file_path
          = scrRec.file_path) :=
  ⟨by rfl, by rfl, by rfl, by rfl, by decide, by rfl,
   upgrade_changed_updates_only_hash_and_timestamp
     (fun _ => "newhash") "2025-10-12T00:00:00" (fun _ => some [104, 105])
     [("test-app", scrRec)] [("/home/u/.local/bin/test-app", [104])]
     "test-app" scrRec "https://raw.githubusercontent.com/user/repo/main/script.py"
     [104, 105] "oldhash" "/home/u/.local/bin/test-app"
     (by rfl) (by rfl) (by rfl) (by rfl) (by decide) (by rfl)⟩

/-- Claim C8: when the fetched content hashes to the stored file_hash,
upgrade performs no state change at all — the record store and the file
system are returned unchanged — and the result is False. -/
theorem upgrade_unchanged_is_noop
    (hash : List Nat → String) (now : String)
    (fetch : String → Option (List Nat)) (records : RecordMap) (fs : FS)
    (name : String) (info : PackageRecord) (url : String)
    (content : List Nat) (stored : String)
    (h1 : lookupRec name records = some info)
    (h2 : info.file_url = some url)
    (h3 : fetch url = some content)
    (h4 : info.file_hash = some stored)
    (h5 : hash content = stored) :
    upgrade_app hash now fetch (records, fs) name = ((records, fs), false) := by
  simp [upgrade_app, h1, h2, h3, h4, h5]

/-- Concrete instantiation of claim C8: re-fetching identical content
leaves everything untouched. -/
theorem upgrade_unchanged_witness :
    lookupRec "test-app" [("test-app", scrRec)] = some scrRec
    ∧ scrRec.file_url
      = some "https://raw.githubusercontent.com/user/repo/main/script.py"
    ∧ (fun _ : String => some [104])
        "https://raw.githubusercontent.com/user/repo/main/script.py"
      = some [104]
    ∧ scrRec.file_hash = some "oldhash"
    ∧ (fun _ : List Nat => "oldhash") [104] = "oldhash"
    ∧ upgrade_app (fun _ => "oldhash") "2025-10-12T00:00:00"
        (fun _ => some [104])
        ([("test-app", scrRec)], [("/home/u/.local/bin/test-app", [104])])
        "test-app"
      = (([("test-app", scrRec)], [("/home/u/.local/bin/test-app", [104])]),
         false) :=
  ⟨by rfl, by rfl, by rfl, by rfl, by rfl,
   upgrade_unchanged_is_noop
     (fun _ => "oldhash") "2025-10-12T00:00:00" (fun _ => some [104])
     [("test-app", scrRec)] [("/home/u/.local/bin/test-app", [104])]
     "test-app" scrRec "https://raw.githubusercontent.com/user/repo/main/script.py"
     [104] "oldhash" (by rfl) (by rfl) (by rfl) (by rfl) (by rfl)⟩

/-- Every character of a name accepted by validate_app_name is in the
class or is the permitted trailing newline. -/
theorem validate_chars (name : String) (h : validate_app_name name = true) :
    ∀ c ∈ name.data, allowedChar c = true ∨ c = '\n' := by
  unfold validate_app_name at h
  by_cases hl : name.data.getLast? = some '\n'
  · rw [if_pos hl] at h
    have hall : ∀ c ∈ name.data.dropLast, allowedChar c = true :=
      List.all_eq_true.mp ((Bool.and_eq_true _ _).mp h).2
    have hne : name.data ≠ [] := fun e => by rw [e] at hl; simp at hl
    have hlast : name.data.getLast hne = '\n' := by
      have he := List.getLast?_eq_getLast name.data hne
      rw [he] at hl
      exact Option.some.inj hl
    intro c hc
    rw [← List.dropLast_append_getLast hne] at hc
    rcases List.mem_append.mp hc with h1 | h1
    · exact Or.inl (hall c h1)
    · right
      have : c = name.data.getLast hne := by simpa using h1
      rw [this, hlast]
  · rw [if_neg hl] at h
    intro c hc
    exact Or.inl (List.all_eq_true.mp ((Bool.and_eq_true _ _).mp h).2 c hc)

/-- Claim C10: a name accepted by validate_app_name contains no slash
and no dot, so the install target install_dir/name is a single path
component inside the install directory and is never equal to the record
store path install_dir/.yankpacks: no install or upgrade of a validly
named package can overwrite the persisted record file. -/
theorem valid_name_paths_disjoint (d name : String)
    (h : validate_app_name name = true) :
    '/' ∉ name.data ∧ '.' ∉ name.data
    ∧ installPath d name ≠ recordsFilePath d := by
  have hslash : '/' ∉ name.data := fun hm => by
    rcases validate_chars name h '/' hm with hc | hc
    · exact absurd hc (by decide)
    · exact absurd hc (by decide)
  have hdot : '.' ∉ name.data := fun hm => by
    rcases validate_chars name h '.' hm with hc | hc
    · exact absurd hc (by decide)
    · exact absurd hc (by decide)
  refine ⟨hslash, hdot, fun heq => ?_⟩
  have hdata : name.data = ".yankpacks".data := by
    have e := congrArg String.data heq
    rw [installPath, recordsFilePath, string_data_append, string_data_append] at e
    exact List.append_cancel_left e
  exact hdot (by rw [hdata]; decide)

/-- Concrete instantiation of claim C10 at the real install directory
and a valid name. -/
theorem valid_name_paths_disjoint_witness :
    validate_app_name "demo" = true
    ∧ ('/' ∉ "demo".data ∧ '.' ∉ "demo".data
        ∧ installPath "/home/u/.local/bin" "demo"
          ≠ recordsFilePath "/home/u/.local/bin") :=
  ⟨by decide, valid_name_paths_disjoint "/home/u/.local/bin" "demo" (by decide)⟩

/-- Concrete instantiation of the amended claim C6, reproducing the
spec example: a repo URL with a .git suffix has the suffix stripped. -/
theorem get_raw_url_builds_witness :
    "u".data ≠ [] ∧ '/' ∉ "u".data ∧ "r.git".data ≠ [] ∧ '/' ∉ "r.git".data
    ∧ get_raw_url (String.mk ("https://github.com/".data
          ++ ("u".data ++ '/' :: "r.git".data))) (String.mk "p/f.sh".data)
      = some (String.mk ("https://raw.githubusercontent.com/".data
          ++ "u".data ++ ['/'] ++ removeGitL "r.git".data
          ++ "/main/".data ++ "p/f.sh".data)) :=
  ⟨by decide, by decide, by decide, by decide,
   get_raw_url_builds "u".data "r.git".data "p/f.sh".data
     (by decide) (by decide) (by decide) (by decide)⟩

end Yanked
